import Mathlib

/-!
Shallow embedding of src/src/directory/ram_directory.rs (the in-memory
directory of the tantivy index library): an in-memory path → content-buffer
store with a write-then-flush staging writer, bundle serialization with a
trailing little-endian u64 offset, and watch-callback broadcast on the
distinguished metadata path.

Bytes are modelled as lists of naturals (each the value of one byte), paths
as strings, the HashMap of the store as an association list whose keys are
kept distinct (insert replaces in place), and the Arc reference count as an
explicit natural number.
-/

set_option autoImplicit false

/-- A byte sequence: the content of a file, a writer buffer, or a serialized stream. -/
abbrev Bytes := List Nat

/-- A file path (PathBuf in the source), modelled as a string. -/
abbrev PathBuf := String

/-- Lookup in the store map, mirroring HashMap::get: the value bound to the
first (and, under the key-uniqueness invariant, only) entry with this key. -/
def lookupFs : List (PathBuf × Bytes) → PathBuf → Option Bytes
  | [], _ => none
  | (q, e) :: rest, p => if q = p then some e else lookupFs rest p

/-- Insert into the store map, mirroring HashMap::insert: replace the entry
in place when the key is present, append it otherwise. -/
def insertFs : List (PathBuf × Bytes) → PathBuf → Bytes → List (PathBuf × Bytes)
  | [], p, d => [(p, d)]
  | (q, e) :: rest, p, d => if q = p then (p, d) :: rest else (q, e) :: insertFs rest p d

/-- Remove from the store map, mirroring HashMap::remove: drop the first
entry with this key (the only one, under the key-uniqueness invariant). -/
def removeFs : List (PathBuf × Bytes) → PathBuf → List (PathBuf × Bytes)
  | [], _ => []
  | (q, e) :: rest, p => if q = p then rest else (q, e) :: removeFs rest p

/-- Error type of open_read (directory::error::OpenReadError). -/
inductive OpenReadError where
  | FileDoesNotExist (p : PathBuf)
  deriving DecidableEq

/-- Error type of open_write (directory::error::OpenWriteError). -/
inductive OpenWriteError where
  | FileAlreadyExists (p : PathBuf)
  deriving DecidableEq

/-- Error type of delete (directory::error::DeleteError). -/
inductive DeleteError where
  | FileDoesNotExist (p : PathBuf)
  deriving DecidableEq

/-- InnerDirectory: the map from path to content buffer (ReadOnlySource is
just an immutable byte buffer, so it is modelled as Bytes) together with the
watch-callback registry. WatchCallbackList lives outside the given sources;
modelled from the spec: it is the list of currently registered callbacks,
identified by numbers, and broadcast invokes each of them once. -/
structure InnerDirectory where
  fs : List (PathBuf × Bytes)
  watch_router : List Nat
  deriving DecidableEq

/-- InnerDirectory::write: wrap the data in a fresh buffer, insert it under
the path, and report whether the path was previously bound. -/
def InnerDirectory.write (d : InnerDirectory) (p : PathBuf) (data : Bytes) :
    InnerDirectory × Bool :=
  ({ d with fs := insertFs d.fs p data }, (lookupFs d.fs p).isSome)

/-- InnerDirectory::open_read: the buffer bound to the path, or FileDoesNotExist. -/
def InnerDirectory.open_read (d : InnerDirectory) (p : PathBuf) : Except OpenReadError Bytes :=
  match lookupFs d.fs p with
  | some b => Except.ok b
  | none => Except.error (OpenReadError.FileDoesNotExist p)

/-- InnerDirectory::delete: remove the entry, or FileDoesNotExist when absent. -/
def InnerDirectory.delete (d : InnerDirectory) (p : PathBuf) : Except DeleteError InnerDirectory :=
  match lookupFs d.fs p with
  | some _ => Except.ok { d with fs := removeFs d.fs p }
  | none => Except.error (DeleteError.FileDoesNotExist p)

/-- InnerDirectory::exists: whether the path is bound in the store map. -/
def InnerDirectory.existsFile (d : InnerDirectory) (p : PathBuf) : Bool :=
  (lookupFs d.fs p).isSome

/-- InnerDirectory::watch: subscribe a callback to the watch registry. -/
def InnerDirectory.watch (d : InnerDirectory) (cb : Nat) : InnerDirectory :=
  { d with watch_router := d.watch_router ++ [cb] }

/-- InnerDirectory::total_mem_usage: the sum of the lengths of all buffers
held in the store map. -/
def InnerDirectory.total_mem_usage (d : InnerDirectory) : Nat :=
  (d.fs.map (fun f => f.2.length)).sum

/-- The bytes of a string, one per character; paths and the JSON index are
ASCII, where the UTF-8 byte equals the code point. -/
def strBytes (s : String) : Bytes :=
  s.toList.map Char.toNat

/-- Model of the serde_json encoding of one file-index entry: a PathBuf
serializes as a JSON string (paths here need no escaping) and a (u64, u64)
pair as a two-element JSON array. -/
def encodeIndexEntry (p : PathBuf) (s e : Nat) : String :=
  "\"" ++ p ++ "\":[" ++ toString s ++ "," ++ toString e ++ "]"

/-- Model of serde_json::to_writer for the HashMap from PathBuf to (u64, u64):
a JSON object listing the entries in iteration order. -/
def encodeIndex (entries : List (PathBuf × Nat × Nat)) : String :=
  "\x7b" ++ String.intercalate "," (entries.map (fun x => encodeIndexEntry x.1 x.2.1 x.2.2)) ++ "\x7d"

/-- The body-writing loop of InnerDirectory::serialize_bundle: starting from
the given running offset of the CountingWriter, write every file body in
order and record each path with its (start, stop) interval. -/
def bundleLoop : List (PathBuf × Bytes) → Nat → Bytes × List (PathBuf × Nat × Nat)
  | [], _ => ([], [])
  | (p, d) :: rest, off =>
    let stop := off + d.length
    let r := bundleLoop rest stop
    (d ++ r.1, (p, off, stop) :: r.2)

/-- Little-endian byte encoding of a natural in the given number of bytes,
mirroring u64::to_le_bytes when the width is 8. -/
def natToLeBytes : Nat → Nat → Bytes
  | _, 0 => []
  | n, k + 1 => n % 256 :: natToLeBytes (n / 256) k

/-- Decode a little-endian byte sequence back to a natural. -/
def leBytesToNat : Bytes → Nat
  | [] => 0
  | b :: rest => b + 256 * leBytesToNat rest

/-- The last n bytes of a stream. -/
def lastN (n : Nat) (l : Bytes) : Bytes :=
  l.drop (l.length - n)

/-- InnerDirectory::serialize_bundle: write all file bodies while counting
bytes, then the serde_json encoding of the path → (start, stop) index, then
read the CountingWriter count — taken AFTER the index was written — and
append it as 8 little-endian bytes. -/
def InnerDirectory.serialize_bundle (d : InnerDirectory) : Bytes :=
  let r := bundleLoop d.fs 0
  let indexBytes := strBytes (encodeIndex r.2)
  let index_offset := r.1.length + indexBytes.length
  r.1 ++ indexBytes ++ natToLeBytes index_offset 8

/-- The byte offset at which the JSON index structure begins inside the
bundle produced by serialize_bundle: the total length of the file bodies
written before it. -/
def bundleIndexStart (d : InnerDirectory) : Nat :=
  (bundleLoop d.fs 0).1.length

/-- VecWriter: the staging writer. data and pos model the Cursor over a
byte vector (its underlying buffer and its seek position); the
shared_directory back-reference is passed explicitly to flush. -/
structure VecWriter where
  path : PathBuf
  data : Bytes
  pos : Nat
  is_flushed : Bool
  deriving DecidableEq

/-- VecWriter::new: empty buffer at position 0, in the flushed state. -/
def VecWriter.new (p : PathBuf) : VecWriter :=
  ⟨p, [], 0, true⟩

/-- Write bytes into a Cursor buffer at a position: overwrite existing bytes,
zero-fill any gap past the end, extend as needed (std::io::Cursor semantics). -/
def writeAt (data : Bytes) (pos : Nat) (buf : Bytes) : Bytes :=
  data.take pos ++ List.replicate (pos - data.length) 0 ++ buf ++ data.drop (pos + buf.length)

/-- Write for VecWriter (write_all on the Cursor): mark the writer dirty,
write the bytes at the current position, and advance the position. -/
def VecWriter.write (w : VecWriter) (buf : Bytes) : VecWriter :=
  { w with is_flushed := false, data := writeAt w.data w.pos buf, pos := w.pos + buf.length }

/-- Seek for VecWriter with SeekFrom::Start: set the Cursor position. -/
def VecWriter.seek (w : VecWriter) (pos : Nat) : VecWriter :=
  { w with pos := pos }

/-- Flush for VecWriter: mark the writer flushed and publish the ENTIRE
underlying buffer (Cursor::get_ref, independent of the position) into the
shared directory under the writer's path. -/
def VecWriter.flush (w : VecWriter) (d : InnerDirectory) : VecWriter × InnerDirectory :=
  ({ w with is_flushed := true }, (d.write w.path w.data).1)

/-- Drop for VecWriter panics exactly when the writer is dirty (written to
since the last flush); this predicate says whether dropping aborts. -/
def VecWriter.dropAborts (w : VecWriter) : Bool :=
  !w.is_flushed

/-- Modelled from the spec: the distinguished metadata path
(crate::core::META_FILEPATH, defined outside the given sources), whose
atomic rewrite triggers the watch broadcast. -/
def META_FILEPATH : PathBuf := "meta.json"

/-- RAMDirectory::open_write: create the staging writer, unconditionally
stage an empty placeholder under the path (InnerDirectory::write), and fail
with FileAlreadyExists exactly when the path was previously bound. Returns
the result together with the directory state left behind. -/
def RAMDirectory.open_write (d : InnerDirectory) (p : PathBuf) :
    Except OpenWriteError VecWriter × InnerDirectory :=
  let vw := VecWriter.new p
  let r := InnerDirectory.write d p []
  if r.2 then (Except.error (OpenWriteError.FileAlreadyExists p), r.1)
  else (Except.ok vw, r.1)

/-- RAMDirectory::atomic_write: when the fail point is enabled the injected
error fires and nothing happens (none); otherwise reserve the path with an
empty placeholder, write and flush the data through a fresh VecWriter, and
— only when the path is the distinguished metadata path — broadcast to the
watch registry. The result carries the final directory state and the list
of callbacks invoked by the broadcast, read from the registry of the
post-flush state (so the data is already visible when they run). -/
def RAMDirectory.atomic_write (failEnabled : Bool) (d : InnerDirectory) (p : PathBuf)
    (data : Bytes) : Option (InnerDirectory × List Nat) :=
  if failEnabled then none
  else
    let d1 := (InnerDirectory.write d p []).1
    let vw := (VecWriter.new p).write data
    let d2 := (VecWriter.flush vw d1).2
    if p = META_FILEPATH then some (d2, d2.watch_router) else some (d2, [])

/-- RAMDirectory::serialize_bundle: Arc::try_unwrap succeeds exactly when
the strong count (number of live handles, this one included) is 1; on
failure an error is returned and nothing is written to the sink, on success
the inner directory is consumed and serialized after the sink's contents. -/
def RAMDirectory.serialize_bundle (strongCount : Nat) (d : InnerDirectory) (sink : Bytes) :
    Bytes × Option String :=
  if strongCount = 1 then (sink ++ InnerDirectory.serialize_bundle d, none)
  else (sink, some "Serialize bundle requires that there are no other existing copy of the directory.")

/-- The spec-side memory usage: the sum of the byte lengths of the content
buffers of all currently stored paths, each path looked up in the store. -/
def specMemUsage (d : InnerDirectory) : Nat :=
  ((d.fs.map Prod.fst).map (fun p => ((lookupFs d.fs p).getD []).length)).sum

theorem lookupFs_insertFs_self (fs : List (PathBuf × Bytes)) (p : PathBuf) (v : Bytes) :
    lookupFs (insertFs fs p v) p = some v := by
  induction fs with
  | nil => simp [insertFs, lookupFs]
  | cons hd tl ih =>
    obtain ⟨q, e⟩ := hd
    by_cases h : q = p
    · subst h; simp [insertFs, lookupFs]
    · simp [insertFs, lookupFs, h, ih]

theorem insertFs_insertFs (fs : List (PathBuf × Bytes)) (p : PathBuf) (a b : Bytes) :
    insertFs (insertFs fs p a) p b = insertFs fs p b := by
  induction fs with
  | nil => simp [insertFs]
  | cons hd tl ih =>
    obtain ⟨q, e⟩ := hd
    by_cases h : q = p
    · subst h; simp [insertFs]
    · simp [insertFs, h, ih]

theorem writeAt_nil_zero (b : Bytes) : writeAt [] 0 b = b := by
  simp [writeAt]

theorem mem_keys_insertFs (fs : List (PathBuf × Bytes)) (p x : PathBuf) (v : Bytes) :
    x ∈ (insertFs fs p v).map Prod.fst → x ∈ fs.map Prod.fst ∨ x = p := by
  induction fs with
  | nil => intro h; simp [insertFs] at h; right; exact h
  | cons hd tl ih =>
    obtain ⟨q, e⟩ := hd
    by_cases hq : q = p
    · subst hq
      intro h
      have heq : insertFs ((q, e) :: tl) q v = (q, v) :: tl := by simp [insertFs]
      rw [heq] at h
      simp only [List.map_cons, List.mem_cons] at h
      simp only [List.map_cons, List.mem_cons]
      rcases h with h | h
      · exact Or.inr h
      · exact Or.inl (Or.inr h)
    · intro h
      simp only [insertFs, if_neg hq, List.map_cons, List.mem_cons] at h
      simp only [List.map_cons, List.mem_cons]
      rcases h with h | h
      · exact Or.inl (Or.inl h)
      · rcases ih h with h2 | h2
        · exact Or.inl (Or.inr h2)
        · exact Or.inr h2

theorem nodup_keys_insertFs (fs : List (PathBuf × Bytes)) (p : PathBuf) (v : Bytes)
    (h : (fs.map Prod.fst).Nodup) : ((insertFs fs p v).map Prod.fst).Nodup := by
  induction fs with
  | nil => simp [insertFs]
  | cons hd tl ih =>
    obtain ⟨q, e⟩ := hd
    simp only [List.map_cons, List.nodup_cons] at h
    by_cases hq : q = p
    · subst hq
      have heq : insertFs ((q, e) :: tl) q v = (q, v) :: tl := by simp [insertFs]
      rw [heq]
      simp only [List.map_cons, List.nodup_cons]
      exact h
    · simp only [insertFs, if_neg hq, List.map_cons, List.nodup_cons]
      refine ⟨fun hmem => ?_, ih h.2⟩
      rcases mem_keys_insertFs tl p q v hmem with h2 | h2
      · exact h.1 h2
      · exact hq h2

theorem mem_keys_removeFs (fs : List (PathBuf × Bytes)) (p x : PathBuf) :
    x ∈ (removeFs fs p).map Prod.fst → x ∈ fs.map Prod.fst := by
  induction fs with
  | nil => intro h; simp [removeFs] at h
  | cons hd tl ih =>
    obtain ⟨q, e⟩ := hd
    by_cases hq : q = p
    · subst hq
      intro h
      simp only [removeFs, if_pos rfl] at h
      simp only [List.map_cons, List.mem_cons]
      exact Or.inr h
    · intro h
      simp only [removeFs, if_neg hq, List.map_cons, List.mem_cons] at h
      simp only [List.map_cons, List.mem_cons]
      rcases h with h | h
      · exact Or.inl h
      · exact Or.inr (ih h)

theorem nodup_keys_removeFs (fs : List (PathBuf × Bytes)) (p : PathBuf)
    (h : (fs.map Prod.fst).Nodup) : ((removeFs fs p).map Prod.fst).Nodup := by
  induction fs with
  | nil => simp [removeFs]
  | cons hd tl ih =>
    obtain ⟨q, e⟩ := hd
    simp only [List.map_cons, List.nodup_cons] at h
    by_cases hq : q = p
    · subst hq
      simp only [removeFs, if_pos rfl]
      exact h.2
    · simp only [removeFs, if_neg hq, List.map_cons, List.nodup_cons]
      exact ⟨fun hm => h.1 (mem_keys_removeFs tl p q hm), ih h.2⟩

theorem map_len_lookup_cons (fs : List (PathBuf × Bytes)) (q : PathBuf) (v : Bytes)
    (ps : List PathBuf) (h : q ∉ ps) :
    ps.map (fun p => ((lookupFs ((q, v) :: fs) p).getD []).length)
      = ps.map (fun p => ((lookupFs fs p).getD []).length) := by
  induction ps with
  | nil => rfl
  | cons a tl ih =>
    simp only [List.mem_cons, not_or] at h
    simp only [List.map_cons]
    rw [show lookupFs ((q, v) :: fs) a = lookupFs fs a by simp [lookupFs, h.1]]
    rw [ih h.2]

theorem sum_lens_eq_spec (fs : List (PathBuf × Bytes)) (h : (fs.map Prod.fst).Nodup) :
    (fs.map (fun f => f.2.length)).sum
      = ((fs.map Prod.fst).map (fun p => ((lookupFs fs p).getD []).length)).sum := by
  induction fs with
  | nil => rfl
  | cons hd tl ih =>
    obtain ⟨q, v⟩ := hd
    simp only [List.map_cons, List.nodup_cons] at h
    simp only [List.map_cons, List.sum_cons]
    rw [show lookupFs ((q, v) :: tl) q = some v by simp [lookupFs]]
    rw [map_len_lookup_cons tl q v (tl.map Prod.fst) h.1]
    rw [ih h.2]
    rfl

theorem tmu_eq_spec (d : InnerDirectory) (h : (d.fs.map Prod.fst).Nodup) :
    InnerDirectory.total_mem_usage d = specMemUsage d :=
  sum_lens_eq_spec d.fs h

/-- C1: REFUTED as stated. serialize_bundle does write all file bodies and
then the path → (start, stop) index, but the trailing 8 little-endian bytes
hold the CountingWriter count taken AFTER the index was serialized — the
offset where the index ENDS (always stream length minus 8) — not the offset
where the index structure begins. Concretely, for a store holding the single
file "f" with content [7]: the bodies occupy 1 byte, so the index begins at
offset 1, yet the trailer decodes to 12. -/
theorem c1_trailer_is_index_end_not_begin :
    leBytesToNat (lastN 8 (InnerDirectory.serialize_bundle ⟨[("f", [7])], []⟩)) = 12
    ∧ bundleIndexStart ⟨[("f", [7])], []⟩ = 1
    ∧ (12 : Nat) ≠ 1 := by
  refine ⟨by decide, by decide, by decide⟩

/-- C2: REFUTED in its preservation half. open_write on the already-present
path "f" (bound to [1, 2, 3]) does fail with FileAlreadyExists, but the
store does NOT still map "f" to [1, 2, 3] afterwards: the empty placeholder
is staged unconditionally — before the existence check — so the prior
content is clobbered even in the failure case. -/
theorem c2_open_write_clobbers_on_already_exists :
    (RAMDirectory.open_write ⟨[("f", [1, 2, 3])], []⟩ "f").1
      = Except.error (OpenWriteError.FileAlreadyExists "f")
    ∧ lookupFs ((RAMDirectory.open_write ⟨[("f", [1, 2, 3])], []⟩ "f").2).fs "f" = some []
    ∧ some ([] : Bytes) ≠ some [1, 2, 3] :=
  ⟨rfl, by decide, by decide⟩

/-- C3: serialize_bundle on a directory whose store has any second live
handle (strong count at least 2) fails immediately with the ownership error
and writes nothing to the sink; on the sole remaining handle (strong count
1) it succeeds, consuming the inner directory and appending its serialized
bundle to the sink. -/
theorem c3_serialize_bundle_sole_ownership (strongCount : Nat) (d : InnerDirectory)
    (sink : Bytes) :
    (2 ≤ strongCount →
      RAMDirectory.serialize_bundle strongCount d sink
        = (sink, some "Serialize bundle requires that there are no other existing copy of the directory."))
    ∧ RAMDirectory.serialize_bundle 1 d sink = (sink ++ InnerDirectory.serialize_bundle d, none) := by
  constructor
  · intro h
    have hne : strongCount ≠ 1 := by omega
    simp [RAMDirectory.serialize_bundle, hne]
  · simp [RAMDirectory.serialize_bundle]

/-- Witness for C3 at strong count 2, the empty store and an empty sink. -/
theorem c3_witness :
    2 ≤ 2
    ∧ RAMDirectory.serialize_bundle 2 ⟨[], []⟩ []
      = ([], some "Serialize bundle requires that there are no other existing copy of the directory.") :=
  ⟨by decide, (c3_serialize_bundle_sole_ownership 2 ⟨[], []⟩ []).1 (by decide)⟩

/-- C4: for any store and any path p absent from it, open_write(p) succeeds
with a fresh staging writer, and writing b through that writer followed by
flush and then open_read(p) yields exactly b. -/
theorem c4_open_write_write_flush_read (d : InnerDirectory) (p : PathBuf) (b : Bytes)
    (h : lookupFs d.fs p = none) :
    (RAMDirectory.open_write d p).1 = Except.ok (VecWriter.new p)
    ∧ InnerDirectory.open_read
        (((VecWriter.new p).write b).flush ((RAMDirectory.open_write d p).2)).2 p
      = Except.ok b := by
  constructor
  · simp [RAMDirectory.open_write, InnerDirectory.write, h]
  · simp [RAMDirectory.open_write, InnerDirectory.write, h, VecWriter.write, VecWriter.flush,
      VecWriter.new, writeAt, InnerDirectory.open_read, insertFs_insertFs, lookupFs_insertFs_self]

/-- Witness for C4: the empty store, path "f", content [1, 2]. -/
theorem c4_witness :
    lookupFs (InnerDirectory.fs ⟨[], []⟩) "f" = none
    ∧ ((RAMDirectory.open_write ⟨[], []⟩ "f").1 = Except.ok (VecWriter.new "f")
      ∧ InnerDirectory.open_read
          (((VecWriter.new "f").write [1, 2]).flush ((RAMDirectory.open_write ⟨[], []⟩ "f").2)).2 "f"
        = Except.ok [1, 2]) :=
  ⟨rfl, c4_open_write_write_flush_read ⟨[], []⟩ "f" [1, 2] rfl⟩

/-- C5: atomic_write on the distinguished metadata path (fault injection
disabled) reaches a state d2 in which the data is already visible through
open_read, and only then broadcasts: the invocation list is read from the
registry of that post-flush state and is exactly the registered callback
list — each currently registered callback invoked exactly once. -/
theorem c5_atomic_write_meta_broadcast (d : InnerDirectory) (data : Bytes) :
    ∃ d2 : InnerDirectory,
      RAMDirectory.atomic_write false d META_FILEPATH data = some (d2, d2.watch_router)
      ∧ InnerDirectory.open_read d2 META_FILEPATH = Except.ok data
      ∧ d2.watch_router = d.watch_router := by
  refine ⟨⟨insertFs (insertFs d.fs META_FILEPATH []) META_FILEPATH data, d.watch_router⟩, ?_, ?_, rfl⟩
  · simp [RAMDirectory.atomic_write, InnerDirectory.write, VecWriter.new, VecWriter.write,
      VecWriter.flush, writeAt]
  · simp [InnerDirectory.open_read, lookupFs_insertFs_self]

/-- C6: flush publishes the writer's ENTIRE buffer under its bound path —
also after a seek to an arbitrary (e.g. backward) position, and replacing
whatever any store previously held there — and a second flush with no
intervening write changes neither the writer nor the store. -/
theorem c6_flush_entire_buffer_and_idempotent (w : VecWriter) (d : InnerDirectory) (pos : Nat) :
    lookupFs (((w.seek pos).flush d).2).fs w.path = some w.data
    ∧ VecWriter.flush (((w.seek pos).flush d).1) (((w.seek pos).flush d).2)
      = (w.seek pos).flush d := by
  obtain ⟨p, dat, q, fl⟩ := w
  constructor
  · simp [VecWriter.seek, VecWriter.flush, InnerDirectory.write, lookupFs_insertFs_self]
  · simp [VecWriter.seek, VecWriter.flush, InnerDirectory.write, insertFs_insertFs]

/-- C7: dropping a writer that was written to since its last flush aborts
(the Drop impl panics on the dirty state); dropping one whose last
operation was a flush, or that was never written to (freshly created),
does not abort. -/
theorem c7_drop_aborts_iff_dirty (w : VecWriter) (p : PathBuf) (buf : Bytes)
    (d : InnerDirectory) :
    (w.write buf).dropAborts = true
    ∧ (((w.write buf).flush d).1).dropAborts = false
    ∧ (VecWriter.new p).dropAborts = false :=
  ⟨rfl, rfl, rfl⟩

/-- C8: immediately after a successful open_write on an absent path — before
any bytes are written or flushed through the returned writer — the path
exists in the store, reserved by the empty placeholder. -/
theorem c8_exists_after_open_write (d : InnerDirectory) (p : PathBuf)
    (h : lookupFs d.fs p = none) :
    (RAMDirectory.open_write d p).1 = Except.ok (VecWriter.new p)
    ∧ InnerDirectory.existsFile ((RAMDirectory.open_write d p).2) p = true := by
  constructor
  · simp [RAMDirectory.open_write, InnerDirectory.write, h]
  · simp [RAMDirectory.open_write, InnerDirectory.write, h, InnerDirectory.existsFile,
      lookupFs_insertFs_self]

/-- Witness for C8: the empty store and the path "f". -/
theorem c8_witness :
    lookupFs (InnerDirectory.fs ⟨[], []⟩) "f" = none
    ∧ ((RAMDirectory.open_write ⟨[], []⟩ "f").1 = Except.ok (VecWriter.new "f")
      ∧ InnerDirectory.existsFile ((RAMDirectory.open_write ⟨[], []⟩ "f").2) "f" = true) :=
  ⟨rfl, c8_exists_after_open_write ⟨[], []⟩ "f" rfl⟩

/-- C9: in every store state whose keys are distinct (the invariant the
HashMap model maintains), total_mem_usage equals the spec-side sum of the
byte lengths of the content buffers of all currently stored paths, and the
equality still holds after write, after a writer's flush, after
atomic_write (fault injection disabled), and after a successful delete. -/
theorem c9_total_mem_usage_invariant (d : InnerDirectory) (p : PathBuf) (b : Bytes)
    (w : VecWriter) (h : (d.fs.map Prod.fst).Nodup) :
    InnerDirectory.total_mem_usage d = specMemUsage d
    ∧ InnerDirectory.total_mem_usage (InnerDirectory.write d p b).1
      = specMemUsage (InnerDirectory.write d p b).1
    ∧ InnerDirectory.total_mem_usage (VecWriter.flush w d).2
      = specMemUsage (VecWriter.flush w d).2
    ∧ (∀ d2 inv, RAMDirectory.atomic_write false d p b = some (d2, inv)
        → InnerDirectory.total_mem_usage d2 = specMemUsage d2)
    ∧ (∀ d2, InnerDirectory.delete d p = Except.ok d2
        → InnerDirectory.total_mem_usage d2 = specMemUsage d2) := by
  refine ⟨tmu_eq_spec d h, ?_, ?_, ?_, ?_⟩
  · exact tmu_eq_spec _ (nodup_keys_insertFs d.fs p b h)
  · exact tmu_eq_spec _ (nodup_keys_insertFs d.fs w.path w.data h)
  · intro d2 inv h2
    by_cases hp : p = META_FILEPATH
    · simp [RAMDirectory.atomic_write, InnerDirectory.write, VecWriter.new, VecWriter.write,
        VecWriter.flush, writeAt, hp] at h2
      obtain ⟨h3, h4⟩ := h2
      subst h3
      exact tmu_eq_spec _ (nodup_keys_insertFs _ _ _ (nodup_keys_insertFs d.fs _ [] h))
    · simp [RAMDirectory.atomic_write, InnerDirectory.write, VecWriter.new, VecWriter.write,
        VecWriter.flush, writeAt, hp] at h2
      obtain ⟨h3, h4⟩ := h2
      subst h3
      exact tmu_eq_spec _ (nodup_keys_insertFs _ _ _ (nodup_keys_insertFs d.fs _ [] h))
  · intro d2 h2
    unfold InnerDirectory.delete at h2
    cases hl : lookupFs d.fs p with
    | none => rw [hl] at h2; exact absurd h2 (by simp)
    | some v =>
      rw [hl] at h2
      simp only [Except.ok.injEq] at h2
      subst h2
      exact tmu_eq_spec _ (nodup_keys_removeFs d.fs p h)

/-- Witness for C9: a two-file store with distinct keys. -/
theorem c9_witness :
    ((InnerDirectory.fs ⟨[("a", [1]), ("b", [2, 3])], []⟩).map Prod.fst).Nodup
    ∧ InnerDirectory.total_mem_usage ⟨[("a", [1]), ("b", [2, 3])], []⟩
      = specMemUsage ⟨[("a", [1]), ("b", [2, 3])], []⟩ :=
  ⟨by decide, (c9_total_mem_usage_invariant ⟨[("a", [1]), ("b", [2, 3])], []⟩ "a" [5]
      (VecWriter.new "c") (by decide)).1⟩

/-- C10: atomic_write (fault injection disabled) on a path that is already
present succeeds — it never fails with AlreadyExists — and wholesale
replaces the content: the subsequent open_read returns exactly the new
data, for every path, distinguished or not. -/
theorem c10_atomic_write_replaces_existing (d : InnerDirectory) (p : PathBuf)
    (data b0 : Bytes) (h : lookupFs d.fs p = some b0) :
    ∃ d2 inv, RAMDirectory.atomic_write false d p data = some (d2, inv)
      ∧ InnerDirectory.open_read d2 p = Except.ok data := by
  refine ⟨⟨insertFs (insertFs d.fs p []) p data, d.watch_router⟩,
    if p = META_FILEPATH then d.watch_router else [], ?_, ?_⟩
  · by_cases hp : p = META_FILEPATH <;>
      simp [RAMDirectory.atomic_write, InnerDirectory.write, VecWriter.new, VecWriter.write,
        VecWriter.flush, writeAt, hp]
  · simp [InnerDirectory.open_read, lookupFs_insertFs_self]

/-- Witness for C10: the store holding "f" with content [9], overwritten
atomically with [4, 5]. -/
theorem c10_witness :
    lookupFs (InnerDirectory.fs ⟨[("f", [9])], []⟩) "f" = some [9]
    ∧ (∃ d2 inv, RAMDirectory.atomic_write false ⟨[("f", [9])], []⟩ "f" [4, 5] = some (d2, inv)
        ∧ InnerDirectory.open_read d2 "f" = Except.ok [4, 5]) :=
  ⟨by decide, c10_atomic_write_replaces_existing ⟨[("f", [9])], []⟩ "f" [4, 5] [9] (by decide)⟩
